import Mathlib

/-!
Shallow embedding of the Tetris engine (`src/app/types/tetris.ts`,
`src/app/utils/tetris.ts`, `src/app/hooks/useTetris.ts`).

Boards are lists of rows; a cell is `Option TetrominoType` (`none` = empty,
mirroring `null`).  Coordinates are integers, as in the source (piece
positions may be negative above the top of the board).  Randomness is made
explicit: the Fisher-Yates shuffle takes the sequence of random indices as a
parameter (`Math.floor(Math.random() * (i + 1))` is exactly an arbitrary
element of `Fin (i + 1)`), and operations that draw a fresh piece from the
global bag take the drawn type as a parameter.
-/

/-- The seven piece types (`TetrominoType` in `types/tetris.ts`). -/
inductive TetrominoType where
  | I | O | T | S | Z | J | L
deriving DecidableEq, Repr

/-- Integer grid coordinates (`Position` in `types/tetris.ts`). -/
structure Position where
  x : Int
  y : Int
deriving DecidableEq, Repr

/-- A tetromino (`Tetromino` in `types/tetris.ts`): type, position, the
occupancy matrix of the current rotation, and the rotation index. -/
structure Tetromino where
  type : TetrominoType
  position : Position
  shape : List (List Nat)
  rotation : Nat
deriving DecidableEq, Repr

/-- A board row: one `Option TetrominoType` per column. -/
abbrev Row := List (Option TetrominoType)

/-- The game board (`(TetrominoType | null)[][]`). -/
abbrev Board := List Row

/-- `BOARD_WIDTH` in `types/tetris.ts`. -/
def BOARD_WIDTH : Nat := 10

/-- `BOARD_HEIGHT` in `types/tetris.ts`. -/
def BOARD_HEIGHT : Nat := 20

/-- `TETROMINO_SHAPES` in `types/tetris.ts`: the four rotation states of each
piece type, in order 0, 1, 2, 3. -/
def TETROMINO_SHAPES : TetrominoType → List (List (List Nat))
  | .I => [[[0,0,0,0],[1,1,1,1],[0,0,0,0],[0,0,0,0]],
           [[0,0,1,0],[0,0,1,0],[0,0,1,0],[0,0,1,0]],
           [[0,0,0,0],[0,0,0,0],[1,1,1,1],[0,0,0,0]],
           [[0,1,0,0],[0,1,0,0],[0,1,0,0],[0,1,0,0]]]
  | .O => [[[1,1],[1,1]], [[1,1],[1,1]], [[1,1],[1,1]], [[1,1],[1,1]]]
  | .T => [[[0,1,0],[1,1,1],[0,0,0]],
           [[0,1,0],[0,1,1],[0,1,0]],
           [[0,0,0],[1,1,1],[0,1,0]],
           [[0,1,0],[1,1,0],[0,1,0]]]
  | .S => [[[0,1,1],[1,1,0],[0,0,0]],
           [[0,1,0],[0,1,1],[0,0,1]],
           [[0,0,0],[0,1,1],[1,1,0]],
           [[1,0,0],[1,1,0],[0,1,0]]]
  | .Z => [[[1,1,0],[0,1,1],[0,0,0]],
           [[0,0,1],[0,1,1],[0,1,0]],
           [[0,0,0],[1,1,0],[0,1,1]],
           [[0,1,0],[1,1,0],[1,0,0]]]
  | .L => [[[0,0,1],[1,1,1],[0,0,0]],
           [[0,1,0],[0,1,0],[0,1,1]],
           [[0,0,0],[1,1,1],[1,0,0]],
           [[1,1,0],[0,1,0],[0,1,0]]]
  | .J => [[[1,0,0],[1,1,1],[0,0,0]],
           [[0,1,1],[0,1,0],[0,1,0]],
           [[0,0,0],[1,1,1],[0,0,1]],
           [[0,1,0],[0,1,0],[1,1,0]]]

/-- `TETROMINOS` in `types/tetris.ts` (the compact shape table; only its first
row's length is used, to horizontally center a freshly spawned piece). -/
def TETROMINOS : TetrominoType → List (List Nat)
  | .I => [[1,1,1,1]]
  | .O => [[1,1],[1,1]]
  | .T => [[0,1,0],[1,1,1]]
  | .S => [[0,1,1],[1,1,0]]
  | .Z => [[1,1,0],[0,1,1]]
  | .J => [[1,0,0],[1,1,1]]
  | .L => [[0,0,1],[1,1,1]]

/-- Scoring constants (`CLEAR_POINTS` in `types/tetris.ts`). -/
def CLEAR_POINTS_SINGLE : Nat := 1
def CLEAR_POINTS_DOUBLE : Nat := 2
def CLEAR_POINTS_TRIPLE : Nat := 3
def CLEAR_POINTS_TETRIS : Nat := 4
def CLEAR_POINTS_PERFECT_CLEAR : Nat := 10

/-- Combo band constants (`COMBO_POINTS` in `types/tetris.ts`). -/
def COMBO_POINTS_0 : Nat := 0
def COMBO_POINTS_1to2 : Nat := 1
def COMBO_POINTS_3to4 : Nat := 2
def COMBO_POINTS_5to6 : Nat := 3
def COMBO_POINTS_7to8 : Nat := 4
def COMBO_POINTS_9to10 : Nat := 5
def COMBO_POINTS_11to12 : Nat := 6
def COMBO_POINTS_13to14 : Nat := 7
def COMBO_POINTS_15to16 : Nat := 8
def COMBO_POINTS_17up : Nat := 10

/-- `createEmptyBoard` in `utils/tetris.ts`. -/
def createEmptyBoard : Board :=
  List.replicate BOARD_HEIGHT (List.replicate BOARD_WIDTH none)

/-- The cell of `board` at integer coordinates (used where the source reads
`board[newY][newX]` after guarding `newY >= 0`; out-of-range reads default to
empty). -/
def cellAt (board : Board) (y x : Int) : Option TetrominoType :=
  (board.getD y.toNat []).getD x.toNat none

/-- The cell of `board` at natural row/column indices. -/
def getCell (board : Board) (y x : Nat) : Option TetrominoType :=
  (board.getD y []).getD x none

/-- `isValidMove` in `utils/tetris.ts`: every occupied shape cell must land in
columns `[0, BOARD_WIDTH)`, above row `BOARD_HEIGHT`, and (when its row is
non-negative) on an empty board cell.  Negative rows are never checked against
occupancy. -/
def isValidMove (board : Board) (piece : Tetromino) (position : Position) : Bool :=
  (List.range piece.shape.length).all fun y =>
    (List.range (piece.shape.getD y []).length).all fun x =>
      decide ((piece.shape.getD y []).getD x 0 = 0) ||
        (let newX : Int := position.x + x
         let newY : Int := position.y + y
         !(decide (newX < 0) || decide ((BOARD_WIDTH : Int) ≤ newX) ||
           decide ((BOARD_HEIGHT : Int) ≤ newY) ||
           (decide (0 ≤ newY) && (cellAt board newY newX).isSome)))

/-- Set one board cell (the write `newBoard[boardY][boardX] = piece.type`). -/
def setCell (board : Board) (y x : Nat) (v : Option TetrominoType) : Board :=
  board.set y ((board.getD y []).set x v)

/-- All `(rowIndex, colIndex, value)` triples of a shape, in the iteration
order of the source's nested `forEach`. -/
def shapeCells (shape : List (List Nat)) : List (Nat × Nat × Nat) :=
  (List.range shape.length).flatMap fun y =>
    (List.range (shape.getD y []).length).map fun x => (y, x, (shape.getD y []).getD x 0)

/-- `mergePieceToBoard` in `utils/tetris.ts`: write every occupied shape cell
as the piece's type, silently skipping out-of-bounds targets. -/
def mergePieceToBoard (board : Board) (piece : Tetromino) : Board :=
  (shapeCells piece.shape).foldl
    (fun acc c =>
      if c.2.2 ≠ 0 then
        let boardY : Int := piece.position.y + c.1
        let boardX : Int := piece.position.x + c.2.1
        if 0 ≤ boardY ∧ boardY < (BOARD_HEIGHT : Int) ∧ 0 ≤ boardX ∧ boardX < (BOARD_WIDTH : Int) then
          setCell acc boardY.toNat boardX.toNat (some piece.type)
        else acc
      else acc)
    board

/-- A row is full when every cell is occupied (`row.every(cell => cell !== null)`). -/
def isFullRow (row : Row) : Bool := row.all (·.isSome)

/-- A fully empty row, as prepended by `clearLines`. -/
def emptyRow : Row := List.replicate BOARD_WIDTH none

/-- The source's `while (newBoard.length < BOARD_HEIGHT) newBoard.unshift(...)`
padding loop. -/
def padTo (n : Nat) (rows : Board) : Board :=
  if rows.length < n then padTo n (emptyRow :: rows) else rows
termination_by n - rows.length
decreasing_by simp; omega

/-- Result record of `clearLines` in `utils/tetris.ts`. -/
structure ClearResult where
  board : Board
  linesCleared : Nat
  ComboNumber : Nat
deriving DecidableEq, Repr

/-- `clearLines` in `utils/tetris.ts`: drop full rows (counting them), reset
the combo to 0 when no row was full and increment it otherwise, then pad the
top with empty rows back to `BOARD_HEIGHT`. -/
def clearLines (board : Board) (ComboNumber : Nat) : ClearResult :=
  let linesCleared := board.countP isFullRow
  -- ComboClearFlag stays true exactly when the filter saw no full row
  let ComboClearFlag := !board.any isFullRow
  let newBoard := board.filter fun row => !isFullRow row
  { board := padTo BOARD_HEIGHT newBoard,
    linesCleared := linesCleared,
    ComboNumber := if ComboClearFlag then 0 else ComboNumber + 1 }

/-- The `switch (linesCleared)` of `calculatePoints`. -/
def basePoints (linesCleared : Nat) : Nat :=
  if linesCleared = 1 then CLEAR_POINTS_SINGLE
  else if linesCleared = 2 then CLEAR_POINTS_DOUBLE
  else if linesCleared = 3 then CLEAR_POINTS_TRIPLE
  else if linesCleared = 4 then CLEAR_POINTS_TETRIS
  else 0

/-- The `switch (ComboNumber)` of `calculatePoints`.  The source lists `case 3`
twice (in the 1-2 band and again in the 3-4 band); JavaScript takes the first
matching label, so combo 3 falls in the 1-2 band and only combo 4 reaches the
3-4 band. -/
def comboBonus (ComboNumber : Nat) : Nat :=
  if ComboNumber = 0 ∨ ComboNumber = 1 then COMBO_POINTS_0
  else if ComboNumber = 2 ∨ ComboNumber = 3 then COMBO_POINTS_1to2
  else if ComboNumber = 4 then COMBO_POINTS_3to4
  else if ComboNumber = 5 ∨ ComboNumber = 6 then COMBO_POINTS_5to6
  else if ComboNumber = 7 ∨ ComboNumber = 8 then COMBO_POINTS_7to8
  else if ComboNumber = 9 ∨ ComboNumber = 10 then COMBO_POINTS_9to10
  else if ComboNumber = 11 ∨ ComboNumber = 12 then COMBO_POINTS_11to12
  else if ComboNumber = 13 ∨ ComboNumber = 14 then COMBO_POINTS_13to14
  else if ComboNumber = 15 ∨ ComboNumber = 16 then COMBO_POINTS_15to16
  else COMBO_POINTS_17up

/-- `calculatePoints` in `utils/tetris.ts` (the two-argument revision present
under `src/`). -/
def calculatePoints (linesCleared ComboNumber : Nat) : Nat :=
  basePoints linesCleared + comboBonus ComboNumber

/-- Modelled from the spec: `clearLines` as consumed by `lockPiece`/`hardDrop`
in `hooks/useTetris.ts`, whose revision returning an `isPerfectClear` field is
missing from `src/` (the copy under `src/` predates it).  Per the spec,
perfect-clear is "true iff, after clearing, every cell of the Board is empty";
the flag is computed on the surviving rows (padding rows are empty by
construction). -/
structure ClearResultPC where
  board : Board
  linesCleared : Nat
  ComboNumber : Nat
  isPerfectClear : Bool
deriving DecidableEq, Repr

/-- Modelled from the spec: see `ClearResultPC`.  Identical to `clearLines`
except for additionally reporting the perfect-clear flag. -/
def clearLinesPC (board : Board) (ComboNumber : Nat) : ClearResultPC :=
  let linesCleared := board.countP isFullRow
  let ComboClearFlag := !board.any isFullRow
  let newBoard := board.filter fun row => !isFullRow row
  { board := padTo BOARD_HEIGHT newBoard,
    linesCleared := linesCleared,
    ComboNumber := if ComboClearFlag then 0 else ComboNumber + 1,
    isPerfectClear := newBoard.all fun row => row.all (·.isNone) }

/-- Modelled from the spec: the three-argument `calculatePoints` consumed by
`lockPiece`/`hardDrop` in `hooks/useTetris.ts`, missing from `src/`.  Per the
spec, the score delta is the base points plus the combo bonus "+
`perfectClearBonus` if perfect-clear is true". -/
def calculatePointsPC (linesCleared ComboNumber : Nat) (isPerfectClear : Bool) : Nat :=
  calculatePoints linesCleared ComboNumber +
    (if isPerfectClear then CLEAR_POINTS_PERFECT_CLEAR else 0)

/-- `dropPosition.y++` loop of `getDropPosition`, made total with explicit
fuel: keep stepping down while the square below is valid.  The source has no
fuel; the termination theorem for the claim shows the result is independent of
the fuel once it reaches `(BOARD_HEIGHT - 1 - y).toNat`, provided the shape
has at least one occupied cell. -/
def dropLoop (board : Board) (piece : Tetromino) : Nat → Int → Int
  | 0, y => y
  | fuel + 1, y =>
      if isValidMove board piece { x := piece.position.x, y := y + 1 } then
        dropLoop board piece fuel (y + 1)
      else y

/-- Fuel sufficient for `dropLoop` when the shape has an occupied cell. -/
def dropFuel (piece : Tetromino) : Nat :=
  ((BOARD_HEIGHT : Int) - 1 - piece.position.y).toNat

/-- `getDropPosition` in `utils/tetris.ts`. -/
def getDropPosition (board : Board) (piece : Tetromino) : Position :=
  { x := piece.position.x,
    y := dropLoop board piece (dropFuel piece) piece.position.y }

/-! ## The 7-bag randomizer (`TetrominoBag` in `utils/tetris.ts`) -/

/-- One step of the Fisher-Yates loop body:
`[a[i], a[j]] = [a[j], a[i]]`.  Total: out-of-range indices leave the list
unchanged (in the source both indices are always in range). -/
def swapList {α : Type} (l : List α) (i j : Nat) : List α :=
  match l[i]?, l[j]? with
  | some a, some b => (l.set i b).set j a
  | _, _ => l

/-- The Fisher-Yates loop of `shuffle`, from index `i` down to 1: at index `i`
swap positions `i` and `rand i`, where `rand i ∈ [0, i]` models
`Math.floor(Math.random() * (i + 1))`. -/
def fisherYatesAux {α : Type} (rand : (n : Nat) → Fin (n + 1)) : Nat → List α → List α
  | 0, l => l
  | i + 1, l => fisherYatesAux rand i (swapList l (i + 1) (rand (i + 1)).val)

/-- `shuffle` in `utils/tetris.ts` (Fisher-Yates over a copy of the input). -/
def shuffle {α : Type} (rand : (n : Nat) → Fin (n + 1)) (l : List α) : List α :=
  fisherYatesAux rand (l.length - 1) l

/-- The literal `['I', 'O', 'T', 'S', 'Z', 'J', 'L']` of `generateNewBag`. -/
def allTypes : List TetrominoType := [.I, .O, .T, .S, .Z, .J, .L]

/-- `generateNewBag` in `utils/tetris.ts`. -/
def generateNewBag (rand : (n : Nat) → Fin (n + 1)) : List TetrominoType :=
  shuffle rand allTypes

/-- The bag state (`private bag: TetrominoType[]`). -/
structure TetrominoBag where
  bag : List TetrominoType
deriving DecidableEq, Repr

/-- `TetrominoBag.next`: refill (shuffling) when empty, then `pop()` one type
from the back of the array.  `pop()!` on the refilled 7-element bag always
succeeds; popping is modelled as `(getLast?, dropLast)`. -/
def TetrominoBag.next (rand : (n : Nat) → Fin (n + 1)) (b : TetrominoBag) :
    Option TetrominoType × TetrominoBag :=
  let bag := if b.bag.length = 0 then generateNewBag rand else b.bag
  (bag.getLast?, ⟨bag.dropLast⟩)

/-- `TetrominoBag.reset`: empty the bag, forcing a fresh shuffle on the next
draw. -/
def TetrominoBag.reset (_ : TetrominoBag) : TetrominoBag := ⟨[]⟩

/-- `n` consecutive draws (`next()` calls) from a bag. -/
def drawN (rand : (n : Nat) → Fin (n + 1)) :
    Nat → TetrominoBag → List (Option TetrominoType) × TetrominoBag
  | 0, b => ([], b)
  | n + 1, b =>
      let (t, b2) := TetrominoBag.next rand b
      let (ts, b3) := drawN rand n b2
      (t :: ts, b3)

/-! ## Hook-level state and operations (`hooks/useTetris.ts`, current revision) -/

/-- `GameState` as used by the current `useTetris` revision (with the
`nextPieces` queue). -/
structure GameState where
  board : Board
  currentPiece : Option Tetromino
  nextPieces : List Tetromino
  holdPiece : Option Tetromino
  canHold : Bool
  score : Nat
  lines : Nat
  level : Nat
  gameOver : Bool
  isPaused : Bool
  ComboNumber : Nat
  timeRemaining : Nat
deriving DecidableEq, Repr

/-- `createTetromino` in `utils/tetris.ts`: rotation-0 shape, horizontally
centered at the top. -/
def createTetromino (type : TetrominoType) : Tetromino :=
  { type := type,
    shape := (TETROMINO_SHAPES type).getD 0 [],
    position := { x := (BOARD_WIDTH / 2 : Nat) - (((TETROMINOS type).getD 0 []).length / 2 : Nat),
                  y := 0 },
    rotation := 0 }

/-- `left_rotatePiece` in `utils/tetris.ts`.  The source computes
`(rotation - 1 + 4) % 4` on JavaScript integers; on `rotation < 4` this equals
`(rotation + 3) % 4`. -/
def left_rotatePiece (piece : Tetromino) : Tetromino :=
  let nextRotation := (piece.rotation + 3) % 4
  { piece with shape := (TETROMINO_SHAPES piece.type).getD nextRotation [],
               rotation := nextRotation }

/-- `right_rotatePiece` in `utils/tetris.ts`. -/
def right_rotatePiece (piece : Tetromino) : Tetromino :=
  let nextRotation := (piece.rotation + 1) % 4
  { piece with shape := (TETROMINO_SHAPES piece.type).getD nextRotation [],
               rotation := nextRotation }

/-- The wall-kick candidate list of `left_rotate`/`right_rotate`. -/
def kicks : List Position :=
  [⟨0, 0⟩, ⟨-1, 1⟩, ⟨1, 1⟩, ⟨-1, 0⟩, ⟨1, 0⟩, ⟨0, -1⟩, ⟨-1, -1⟩, ⟨1, -1⟩]

/-- The `for (const kick of kicks)` loop: first offset at which the rotated
piece is valid, if any. -/
def tryKicks (board : Board) (rotated : Tetromino) : List Position → Option Position
  | [] => none
  | k :: ks =>
      if isValidMove board rotated ⟨rotated.position.x + k.x, rotated.position.y + k.y⟩ then
        some ⟨rotated.position.x + k.x, rotated.position.y + k.y⟩
      else tryKicks board rotated ks

/-- `left_rotate` in `hooks/useTetris.ts` (state update only; the lock-delay
side effects live in `resetLockDelay`, modelled separately). -/
def left_rotate (gs : GameState) : GameState :=
  match gs.currentPiece with
  | none => gs
  | some piece =>
      if gs.gameOver || gs.isPaused then gs
      else
        let rotated := left_rotatePiece piece
        if isValidMove gs.board rotated rotated.position then
          { gs with currentPiece := some rotated }
        else
          match tryKicks gs.board rotated kicks with
          | some newPosition =>
              { gs with currentPiece := some { rotated with position := newPosition } }
          | none => gs

/-- `right_rotate` in `hooks/useTetris.ts`. -/
def right_rotate (gs : GameState) : GameState :=
  match gs.currentPiece with
  | none => gs
  | some piece =>
      if gs.gameOver || gs.isPaused then gs
      else
        let rotated := right_rotatePiece piece
        if isValidMove gs.board rotated rotated.position then
          { gs with currentPiece := some rotated }
        else
          match tryKicks gs.board rotated kicks with
          | some newPosition =>
              { gs with currentPiece := some { rotated with position := newPosition } }
          | none => gs

/-- `holdCurrentPiece` in `hooks/useTetris.ts`; `drawn` is the type produced
by `randomTetrominoType()` when the queue tail is refilled. -/
def holdCurrentPiece (drawn : TetrominoType) (gs : GameState) : GameState :=
  match gs.currentPiece with
  | none => gs
  | some cur =>
      if gs.gameOver || gs.isPaused || !gs.canHold then gs
      else
        match gs.holdPiece with
        | none =>
            let pieceToHold := createTetromino cur.type
            { gs with currentPiece := gs.nextPieces.head?,
                      nextPieces := gs.nextPieces.tail ++ [createTetromino drawn],
                      holdPiece := some pieceToHold,
                      canHold := false }
        | some hp =>
            let pieceFromHold := createTetromino hp.type
            let pieceToHold := createTetromino cur.type
            if !isValidMove gs.board pieceFromHold pieceFromHold.position then gs
            else
              { gs with currentPiece := some pieceFromHold,
                        holdPiece := some pieceToHold,
                        canHold := false }

/-- `lockPiece` in `hooks/useTetris.ts` (state update; `drawn` is the fresh
type appended to the queue). -/
def lockPiece (drawn : TetrominoType) (gs : GameState) : GameState :=
  match gs.currentPiece with
  | none => gs
  | some cur =>
      if gs.gameOver || gs.isPaused then gs
      else
        let boardWithPiece := mergePieceToBoard gs.board cur
        let r := clearLinesPC boardWithPiece gs.ComboNumber
        let newScore := gs.score + calculatePointsPC r.linesCleared r.ComboNumber r.isPerfectClear
        let newLines := gs.lines + r.linesCleared
        let newCurrentPiece := gs.nextPieces.head?
        let gameOver := match newCurrentPiece with
          | some np => !isValidMove r.board np np.position
          | none => false
        { gs with board := r.board,
                  currentPiece := newCurrentPiece,
                  nextPieces := gs.nextPieces.tail ++ [createTetromino drawn],
                  score := newScore,
                  lines := newLines,
                  level := newLines / 10 + 1,
                  gameOver := gameOver,
                  ComboNumber := r.ComboNumber,
                  canHold := true }

/-- `hardDrop` in `hooks/useTetris.ts`: drop the piece to its rest position,
then lock it exactly as `lockPiece` does. -/
def hardDrop (drawn : TetrominoType) (gs : GameState) : GameState :=
  match gs.currentPiece with
  | none => gs
  | some cur =>
      if gs.gameOver || gs.isPaused then gs
      else
        let droppedPiece := { cur with position := getDropPosition gs.board cur }
        let boardWithPiece := mergePieceToBoard gs.board droppedPiece
        let r := clearLinesPC boardWithPiece gs.ComboNumber
        let newScore := gs.score + calculatePointsPC r.linesCleared r.ComboNumber r.isPerfectClear
        let newLines := gs.lines + r.linesCleared
        let newCurrentPiece := gs.nextPieces.head?
        let gameOver := match newCurrentPiece with
          | some np => !isValidMove r.board np np.position
          | none => false
        { gs with board := r.board,
                  currentPiece := newCurrentPiece,
                  nextPieces := gs.nextPieces.tail ++ [createTetromino drawn],
                  score := newScore,
                  lines := newLines,
                  level := newLines / 10 + 1,
                  gameOver := gameOver,
                  ComboNumber := r.ComboNumber,
                  canHold := true }

/-! ## Lock-delay state machine (`resetLockDelay` in `hooks/useTetris.ts`) -/

/-- `maxLockResets` in `hooks/useTetris.ts`. -/
def maxLockResets : Nat := 15

/-- `lockDelayDuration` in `hooks/useTetris.ts` (milliseconds). -/
def lockDelayDuration : Nat := 500

/-- The lock-delay refs (`lockDelayTimerRef` armed or not,
`isLockDelayActiveRef`, `lockResetCountRef`). -/
structure LockDelayState where
  timerArmed : Bool
  isLockDelayActive : Bool
  lockResetCount : Nat
deriving DecidableEq, Repr

/-- What `resetLockDelay` asks the driver to do. -/
inductive LockDelayAction where
  | noop
  | lockNow
  | armTimer (duration : Nat)
deriving DecidableEq, Repr

/-- `clearLockDelay` in `hooks/useTetris.ts`: cancel the timer, deactivate,
zero the reset counter. -/
def clearLockDelay : LockDelayState :=
  { timerArmed := false, isLockDelayActive := false, lockResetCount := 0 }

/-- `resetLockDelay` in `hooks/useTetris.ts`: on a grounded re-evaluation,
lock immediately once the reset counter has reached `maxLockResets`, otherwise
increment the counter, cancel any pending timer and arm a fresh full-duration
one-shot timer. -/
def resetLockDelay (gs : GameState) (ld : LockDelayState) :
    LockDelayState × LockDelayAction :=
  match gs.currentPiece with
  | none => (ld, .noop)
  | some piece =>
      if gs.gameOver || gs.isPaused then (ld, .noop)
      else
        let isAtBottom := !isValidMove gs.board piece
          { x := piece.position.x, y := piece.position.y + 1 }
        if !isAtBottom then (clearLockDelay, .noop)
        else if maxLockResets ≤ ld.lockResetCount then (clearLockDelay, .lockNow)
        else
          ({ timerArmed := true, isLockDelayActive := true,
             lockResetCount := ld.lockResetCount + 1 },
           .armTimer lockDelayDuration)

/-! ## Characterization of `isValidMove` -/

theorem isValidMove_eq_false_iff (board : Board) (piece : Tetromino) (position : Position) :
    isValidMove board piece position = false ↔
    ∃ y, y < piece.shape.length ∧ ∃ x, x < (piece.shape.getD y []).length ∧
      (piece.shape.getD y []).getD x 0 ≠ 0 ∧
      (position.x + x < 0 ∨ (BOARD_WIDTH : Int) ≤ position.x + x ∨
       (BOARD_HEIGHT : Int) ≤ position.y + y ∨
       (0 ≤ position.y + y ∧ (cellAt board (position.y + y) (position.x + x)).isSome = true)) := by
  rw [← Bool.not_eq_true]
  simp only [isValidMove, List.all_eq_true, List.mem_range]
  push_neg
  simp only [ne_eq, not_or, Bool.not_eq_true, Bool.not_eq_false', Bool.or_eq_false_iff,
    decide_eq_false_iff_not, Bool.or_eq_true, decide_eq_true_eq, Bool.and_eq_true, or_assoc]

theorem isValidMove_eq_true_iff (board : Board) (piece : Tetromino) (position : Position) :
    isValidMove board piece position = true ↔
    ∀ y, y < piece.shape.length → ∀ x, x < (piece.shape.getD y []).length →
      (piece.shape.getD y []).getD x 0 ≠ 0 →
      ¬(position.x + x < 0 ∨ (BOARD_WIDTH : Int) ≤ position.x + x ∨
        (BOARD_HEIGHT : Int) ≤ position.y + y ∨
        (0 ≤ position.y + y ∧ (cellAt board (position.y + y) (position.x + x)).isSome = true)) := by
  have h := isValidMove_eq_false_iff board piece position
  constructor
  · intro ht y hy x hx hocc hbad
    have hf : isValidMove board piece position = false := h.mpr ⟨y, hy, x, hx, hocc, hbad⟩
    rw [ht] at hf
    exact Bool.noConfusion hf
  · intro hall
    by_contra hne
    have hf : isValidMove board piece position = false := by
      cases hb : isValidMove board piece position
      · rfl
      · exact absurd hb hne
    obtain ⟨y, hy, x, hx, hocc, hbad⟩ := h.mp hf
    exact hall y hy x hx hocc hbad

/-! ## C4 -/

/-- C4: `isValidMove` returns `false` exactly when some occupied shape cell
lands at a column outside `[0, BOARD_WIDTH)`, at a row `≥ BOARD_HEIGHT`, or at
a non-negative row whose board cell is occupied; occupied cells landing at
negative rows are never checked against board occupancy (they can only fail
the column and bottom bounds). -/
theorem c4_isValidMove_false_iff (board : Board) (piece : Tetromino) (position : Position) :
    isValidMove board piece position = false ↔
    ∃ y, y < piece.shape.length ∧ ∃ x, x < (piece.shape.getD y []).length ∧
      (piece.shape.getD y []).getD x 0 ≠ 0 ∧
      (position.x + x < 0 ∨ (BOARD_WIDTH : Int) ≤ position.x + x ∨
       (BOARD_HEIGHT : Int) ≤ position.y + y ∨
       (0 ≤ position.y + y ∧ (cellAt board (position.y + y) (position.x + x)).isSome = true)) :=
  isValidMove_eq_false_iff board piece position

/-! ## C6 and C7: line clearing and the combo counter -/

theorem padTo_of_le (n : Nat) (rows : Board) (h : rows.length ≤ n) :
    padTo n rows = List.replicate (n - rows.length) emptyRow ++ rows := by
  suffices H : ∀ k rows, n - List.length rows = k → rows.length ≤ n →
      padTo n rows = List.replicate (n - rows.length) emptyRow ++ rows from
    H (n - rows.length) rows rfl h
  intro k
  induction k with
  | zero =>
      intro rows hk hle
      rw [padTo]
      have : ¬ rows.length < n := by omega
      simp [this, hk]
  | succ k ih =>
      intro rows hk hle
      rw [padTo]
      have hlt : rows.length < n := by omega
      simp only [hlt, if_true]
      rw [ih (emptyRow :: rows) (by simp; omega) (by simp; omega)]
      have h1 : n - rows.length = (n - (emptyRow :: rows).length) + 1 := by simp; omega
      rw [h1, List.replicate_succ']
      simp

/-- C6: for a well-formed board, `clearLines` removes exactly the fully
occupied rows, prepends an equal number of fully empty rows so the board again
has `BOARD_HEIGHT` rows, and reports the number of removed rows; on a board
with no fully occupied row it returns the same board and count 0. -/
theorem c6_clearLines_spec (board : Board) (c : Nat) (h : board.length = BOARD_HEIGHT) :
    (clearLines board c).linesCleared = board.countP isFullRow ∧
    (clearLines board c).board =
      List.replicate ((clearLines board c).linesCleared) emptyRow ++
        board.filter (fun row => !isFullRow row) ∧
    (clearLines board c).board.length = BOARD_HEIGHT ∧
    ((∀ row ∈ board, isFullRow row = false) →
      (clearLines board c).board = board ∧ (clearLines board c).linesCleared = 0) := by
  have hlc : (clearLines board c).linesCleared = board.countP isFullRow := rfl
  have hbd : (clearLines board c).board
      = padTo BOARD_HEIGHT (board.filter fun row => !isFullRow row) := rfl
  have hflen : (board.filter fun row => !isFullRow row).length ≤ BOARD_HEIGHT := by
    calc (board.filter fun row => !isFullRow row).length ≤ board.length :=
          List.length_filter_le _ _
      _ = BOARD_HEIGHT := h
  have hcount : (board.filter fun row => !isFullRow row).length
      = board.length - board.countP isFullRow := by
    rw [← List.countP_eq_length_filter]
    have h1 := List.length_eq_countP_add_countP (l := board) (p := isFullRow)
    simp only [decide_not, Bool.decide_eq_true] at h1
    omega
  have hpad := padTo_of_le BOARD_HEIGHT (board.filter fun row => !isFullRow row) hflen
  have hrep : BOARD_HEIGHT - (board.filter fun row => !isFullRow row).length
      = board.countP isFullRow := by
    have h2 : board.countP isFullRow ≤ board.length := List.countP_le_length _
    omega
  refine ⟨hlc, ?_, ?_, ?_⟩
  · rw [hbd, hlc, hpad, hrep]
  · rw [hbd, hpad]
    simp
    omega
  · intro hnone
    have hfe : board.filter (fun row => !isFullRow row) = board :=
      List.filter_eq_self.mpr (by intro a ha; simp [hnone a ha])
    have hc0 : board.countP isFullRow = 0 :=
      List.countP_eq_zero.mpr (by intro a ha; simp [hnone a ha])
    refine ⟨?_, by rw [hlc, hc0]⟩
    rw [hbd, hpad, hrep, hc0]
    simpa using hfe

/-- C7: the combo counter returned by `clearLines` is 0 when no line was
cleared and the input counter plus one when at least one line was cleared,
regardless of how many lines were cleared simultaneously.  In particular a
lock clearing 0 lines right after one that cleared some lines resets the
combo to 0. -/
theorem c7_clearLines_combo (board : Board) (c : Nat) :
    (clearLines board c).ComboNumber =
      if (clearLines board c).linesCleared = 0 then 0 else c + 1 := by
  show (if !board.any isFullRow then 0 else c + 1)
      = if board.countP isFullRow = 0 then 0 else c + 1
  by_cases hany : board.any isFullRow = true
  · have hne : board.countP isFullRow ≠ 0 := by
      obtain ⟨a, ha, hfa⟩ := List.any_eq_true.mp hany
      have := List.countP_pos_iff.mpr ⟨a, ha, hfa⟩
      omega
    simp [hany, hne]
  · have hany' : board.any isFullRow = false := by
      cases hb : board.any isFullRow
      · rfl
      · exact absurd hb hany
    have hz : board.countP isFullRow = 0 := by
      apply List.countP_eq_zero.mpr
      intro a ha hfa
      exact hany (List.any_eq_true.mpr ⟨a, ha, hfa⟩)
    simp [hany', hz]

/-- Witness for C6 at the empty board. -/
theorem c6_clearLines_spec_witness :
    (clearLines createEmptyBoard 0).linesCleared = createEmptyBoard.countP isFullRow ∧
    (clearLines createEmptyBoard 0).board =
      List.replicate ((clearLines createEmptyBoard 0).linesCleared) emptyRow ++
        createEmptyBoard.filter (fun row => !isFullRow row) ∧
    (clearLines createEmptyBoard 0).board.length = BOARD_HEIGHT ∧
    ((∀ row ∈ createEmptyBoard, isFullRow row = false) →
      (clearLines createEmptyBoard 0).board = createEmptyBoard ∧
      (clearLines createEmptyBoard 0).linesCleared = 0) :=
  c6_clearLines_spec createEmptyBoard 0 (by decide)

/-! ## C3: rotation atomicity -/

theorem tryKicks_eq_none (board : Board) (rotated : Tetromino) (ks : List Position)
    (h : ∀ k ∈ ks, isValidMove board rotated
      ⟨rotated.position.x + k.x, rotated.position.y + k.y⟩ = false) :
    tryKicks board rotated ks = none := by
  induction ks with
  | nil => rfl
  | cons k ks ih =>
      simp only [tryKicks]
      rw [h k (by simp)]
      simp only [Bool.false_eq_true, if_false]
      exact ih fun k hk => h k (by simp [hk])

/-- C3: per rotation command — if every wall-kick candidate (including the
in-place offset) of that command fails validity, that command returns the
state unchanged; the active piece keeps its type, rotation and position.  Each
direction is conditioned only on its own kick list. -/
theorem c3_rotation_atomicity (gs : GameState) (piece : Tetromino)
    (hp : gs.currentPiece = some piece) :
    ((∀ k ∈ kicks, isValidMove gs.board (left_rotatePiece piece)
        ⟨(left_rotatePiece piece).position.x + k.x,
         (left_rotatePiece piece).position.y + k.y⟩ = false) →
      left_rotate gs = gs) ∧
    ((∀ k ∈ kicks, isValidMove gs.board (right_rotatePiece piece)
        ⟨(right_rotatePiece piece).position.x + k.x,
         (right_rotatePiece piece).position.y + k.y⟩ = false) →
      right_rotate gs = gs) := by
  have hzero : ∀ p : Position, (⟨p.x + (0:Int), p.y + (0:Int)⟩ : Position) = p := by
    intro p
    cases p
    simp
  constructor
  · intro hl
    show left_rotate gs = gs
    unfold left_rotate
    rw [hp]
    by_cases hg : (gs.gameOver || gs.isPaused) = true
    · simp [hg]
    · have h0 := hl ⟨0, 0⟩ (by simp [kicks])
      rw [hzero (left_rotatePiece piece).position] at h0
      simp only [Bool.not_eq_true] at hg
      rw [hg]
      simp only [Bool.false_eq_true, if_false]
      rw [h0]
      simp only [Bool.false_eq_true, if_false]
      rw [tryKicks_eq_none gs.board (left_rotatePiece piece) kicks hl]
  · intro hr
    show right_rotate gs = gs
    unfold right_rotate
    rw [hp]
    by_cases hg : (gs.gameOver || gs.isPaused) = true
    · simp [hg]
    · have h0 := hr ⟨0, 0⟩ (by simp [kicks])
      rw [hzero (right_rotatePiece piece).position] at h0
      simp only [Bool.not_eq_true] at hg
      rw [hg]
      simp only [Bool.false_eq_true, if_false]
      rw [h0]
      simp only [Bool.false_eq_true, if_false]
      rw [tryKicks_eq_none gs.board (right_rotatePiece piece) kicks hr]

/-- A board that is fully occupied except exactly the four cells of a T piece
at position (3,3): any rotation of that piece, at any kick offset, overlaps an
occupied cell. -/
def cavityBoard : Board :=
  (List.range 20).map fun y => (List.range 10).map fun x =>
    if (y = 3 ∧ x = 4) ∨ (y = 4 ∧ x = 3) ∨ (y = 4 ∧ x = 4) ∨ (y = 4 ∧ x = 5) then none
    else some .I

/-- The T piece sitting in the cavity of `cavityBoard`. -/
def cavityPiece : Tetromino := { createTetromino .T with position := ⟨3, 3⟩ }

/-- The game state for the C3 witness. -/
def cavityState : GameState :=
  { board := cavityBoard, currentPiece := some cavityPiece, nextPieces := [],
    holdPiece := none, canHold := true, score := 0, lines := 0, level := 1,
    gameOver := false, isPaused := false, ComboNumber := 0, timeRemaining := 120 }

/-- Witness for C3: on `cavityState` every kick candidate of each rotation
fails, and each command leaves the state unchanged. -/
theorem c3_rotation_atomicity_witness :
    left_rotate cavityState = cavityState ∧ right_rotate cavityState = cavityState :=
  ⟨(c3_rotation_atomicity cavityState cavityPiece rfl).1 (by decide),
   (c3_rotation_atomicity cavityState cavityPiece rfl).2 (by decide)⟩

/-! ## C8: lock-delay reset cap -/

/-- C8: on a grounded re-evaluation (active piece present, game running), once
the reset counter has reached `maxLockResets` the piece is locked immediately,
bypassing the timer; below the cap the counter increments and a fresh
full-duration one-shot timer is armed (cancelling any pending one). -/
theorem c8_lock_delay_cap (gs : GameState) (ld : LockDelayState) (piece : Tetromino)
    (hp : gs.currentPiece = some piece)
    (hgo : gs.gameOver = false) (hip : gs.isPaused = false)
    (hground : isValidMove gs.board piece
      { x := piece.position.x, y := piece.position.y + 1 } = false) :
    (maxLockResets ≤ ld.lockResetCount →
      resetLockDelay gs ld = (clearLockDelay, .lockNow)) ∧
    (ld.lockResetCount < maxLockResets →
      resetLockDelay gs ld =
        ({ timerArmed := true, isLockDelayActive := true,
           lockResetCount := ld.lockResetCount + 1 }, .armTimer lockDelayDuration)) := by
  constructor
  · intro hcap
    unfold resetLockDelay
    rw [hp]
    simp [hgo, hip, hground, hcap]
  · intro hbelow
    unfold resetLockDelay
    rw [hp]
    have : ¬ maxLockResets ≤ ld.lockResetCount := by omega
    simp [hgo, hip, hground, this]

/-- A grounded state for the C8 witness: a T piece resting on the floor of the
empty board. -/
def groundedState : GameState :=
  { board := createEmptyBoard, currentPiece := some { createTetromino .T with position := ⟨3, 18⟩ },
    nextPieces := [], holdPiece := none, canHold := true, score := 0, lines := 0,
    level := 1, gameOver := false, isPaused := false, ComboNumber := 0, timeRemaining := 120 }

/-- Witness for C8: at the cap the piece locks immediately; below the cap a
fresh timer is armed. -/
theorem c8_lock_delay_cap_witness :
    resetLockDelay groundedState ⟨true, true, 15⟩ = (clearLockDelay, .lockNow) ∧
    resetLockDelay groundedState ⟨false, false, 0⟩ =
      ({ timerArmed := true, isLockDelayActive := true, lockResetCount := 1 },
       .armTimer lockDelayDuration) :=
  ⟨(c8_lock_delay_cap groundedState ⟨true, true, 15⟩ _ rfl rfl rfl (by decide)).1 (by decide),
   (c8_lock_delay_cap groundedState ⟨false, false, 0⟩ _ rfl rfl rfl (by decide)).2 (by decide)⟩

/-! ## C9: hold gating -/

theorem holdCurrentPiece_none (t : TetrominoType) (gs : GameState)
    (hc : gs.currentPiece = none) : holdCurrentPiece t gs = gs := by
  unfold holdCurrentPiece
  rw [hc]

theorem holdCurrentPiece_guard (t : TetrominoType) (gs : GameState) (cur : Tetromino)
    (hc : gs.currentPiece = some cur)
    (hg : (gs.gameOver || gs.isPaused || !gs.canHold) = true) :
    holdCurrentPiece t gs = gs := by
  unfold holdCurrentPiece
  rw [hc]
  simp only [hg, if_true]

theorem holdCurrentPiece_emptyslot (t : TetrominoType) (gs : GameState) (cur : Tetromino)
    (hc : gs.currentPiece = some cur)
    (hg : (gs.gameOver || gs.isPaused || !gs.canHold) = false)
    (hh : gs.holdPiece = none) :
    holdCurrentPiece t gs =
      { gs with currentPiece := gs.nextPieces.head?,
                nextPieces := gs.nextPieces.tail ++ [createTetromino t],
                holdPiece := some (createTetromino cur.type),
                canHold := false } := by
  unfold holdCurrentPiece
  rw [hc]
  simp only [hg, Bool.false_eq_true, if_false, hh]

theorem holdCurrentPiece_swap_invalid (t : TetrominoType) (gs : GameState)
    (cur hp : Tetromino)
    (hc : gs.currentPiece = some cur)
    (hg : (gs.gameOver || gs.isPaused || !gs.canHold) = false)
    (hh : gs.holdPiece = some hp)
    (hv : isValidMove gs.board (createTetromino hp.type)
      (createTetromino hp.type).position = false) :
    holdCurrentPiece t gs = gs := by
  unfold holdCurrentPiece
  rw [hc]
  simp only [hg, Bool.false_eq_true, if_false, hh, hv, Bool.not_false, if_true]

theorem holdCurrentPiece_swap_valid (t : TetrominoType) (gs : GameState)
    (cur hp : Tetromino)
    (hc : gs.currentPiece = some cur)
    (hg : (gs.gameOver || gs.isPaused || !gs.canHold) = false)
    (hh : gs.holdPiece = some hp)
    (hv : isValidMove gs.board (createTetromino hp.type)
      (createTetromino hp.type).position = true) :
    holdCurrentPiece t gs =
      { gs with currentPiece := some (createTetromino hp.type),
                holdPiece := some (createTetromino cur.type),
                canHold := false } := by
  unfold holdCurrentPiece
  rw [hc]
  simp only [hg, Bool.false_eq_true, if_false, hh, hv, Bool.not_true, if_false]

theorem holdCurrentPiece_of_canHold_false (t : TetrominoType) (g : GameState)
    (hch : g.canHold = false) : holdCurrentPiece t g = g := by
  unfold holdCurrentPiece
  cases hc : g.currentPiece with
  | none => rfl
  | some cur => simp [hch]

/-- C9: `holdCurrentPiece` is a no-op when there is no active piece, the game
is over or paused, or `canHold` is false; any call either leaves the state
unchanged or returns it with `canHold := false`; and since only a lock turns
`canHold` back on, a second hold with no intervening lock never changes the
state produced by the first. -/
theorem c9_hold_gating (gs : GameState) (t1 t2 : TetrominoType) :
    ((gs.currentPiece = none ∨ gs.gameOver = true ∨ gs.isPaused = true ∨ gs.canHold = false) →
      holdCurrentPiece t1 gs = gs) ∧
    (holdCurrentPiece t1 gs = gs ∨ (holdCurrentPiece t1 gs).canHold = false) ∧
    holdCurrentPiece t2 (holdCurrentPiece t1 gs) = holdCurrentPiece t1 gs := by
  have hpart2 : holdCurrentPiece t1 gs = gs ∨ (holdCurrentPiece t1 gs).canHold = false := by
    cases hc : gs.currentPiece with
    | none => exact Or.inl (holdCurrentPiece_none t1 gs hc)
    | some cur =>
        cases hg : (gs.gameOver || gs.isPaused || !gs.canHold) with
        | true => exact Or.inl (holdCurrentPiece_guard t1 gs cur hc hg)
        | false =>
            cases hh : gs.holdPiece with
            | none =>
                rw [holdCurrentPiece_emptyslot t1 gs cur hc hg hh]
                exact Or.inr rfl
            | some hp =>
                cases hv : isValidMove gs.board (createTetromino hp.type)
                    (createTetromino hp.type).position with
                | false => exact Or.inl (holdCurrentPiece_swap_invalid t1 gs cur hp hc hg hh hv)
                | true =>
                    rw [holdCurrentPiece_swap_valid t1 gs cur hp hc hg hh hv]
                    exact Or.inr rfl
  refine ⟨?_, hpart2, ?_⟩
  · intro h
    cases hc : gs.currentPiece with
    | none => exact holdCurrentPiece_none t1 gs hc
    | some cur =>
        refine holdCurrentPiece_guard t1 gs cur hc ?_
        rcases h with h | h | h | h
        · rw [hc] at h
          cases h
        · simp [h]
        · simp [h]
        · simp [h]
  · rcases hpart2 with he | hch
    · rw [he]
      cases hc : gs.currentPiece with
      | none => exact holdCurrentPiece_none t2 gs hc
      | some cur =>
          cases hg : (gs.gameOver || gs.isPaused || !gs.canHold) with
          | true => exact holdCurrentPiece_guard t2 gs cur hc hg
          | false =>
              have h1 := Bool.or_eq_false_iff.mp hg
              have hch : gs.canHold = true := by simpa using h1.2
              cases hh : gs.holdPiece with
              | none =>
                  exfalso
                  rw [holdCurrentPiece_emptyslot t1 gs cur hc hg hh] at he
                  have hproj := congrArg GameState.canHold he
                  simp only at hproj
                  rw [hch] at hproj
                  cases hproj
              | some hp =>
                  cases hv : isValidMove gs.board (createTetromino hp.type)
                      (createTetromino hp.type).position with
                  | false => exact holdCurrentPiece_swap_invalid t2 gs cur hp hc hg hh hv
                  | true =>
                      exfalso
                      rw [holdCurrentPiece_swap_valid t1 gs cur hp hc hg hh hv] at he
                      have hproj := congrArg GameState.canHold he
                      simp only at hproj
                      rw [hch] at hproj
                      cases hproj
    · exact holdCurrentPiece_of_canHold_false t2 (holdCurrentPiece t1 gs) hch

/-- A state that has already consumed its hold (`canHold = false`). -/
def heldState : GameState :=
  { board := createEmptyBoard, currentPiece := some (createTetromino .T),
    nextPieces := [createTetromino .I], holdPiece := some (createTetromino .O),
    canHold := false, score := 0, lines := 0, level := 1, gameOver := false,
    isPaused := false, ComboNumber := 0, timeRemaining := 120 }

/-- Witness for C9: with `canHold = false` a hold call is a no-op. -/
theorem c9_hold_gating_witness :
    holdCurrentPiece TetrominoType.I heldState = heldState :=
  (c9_hold_gating heldState TetrominoType.I TetrominoType.I).1
    (Or.inr (Or.inr (Or.inr rfl)))

/-! ## C1: perfect clear -/

theorem mem_padTo (n : Nat) (rows : Board) (r : Row) (h : r ∈ padTo n rows) :
    r = emptyRow ∨ r ∈ rows := by
  by_cases hlt : rows.length < n
  · rw [padTo, if_pos hlt] at h
    rcases mem_padTo n (emptyRow :: rows) r h with h1 | h1
    · exact Or.inl h1
    · rcases List.mem_cons.mp h1 with h2 | h2
      · exact Or.inl h2
      · exact Or.inr h2
  · rw [padTo, if_neg hlt] at h
    exact Or.inr h
termination_by n - rows.length
decreasing_by simp; omega

theorem mem_padTo_of_mem (n : Nat) (rows : Board) (r : Row) (h : r ∈ rows) :
    r ∈ padTo n rows := by
  by_cases hlt : rows.length < n
  · rw [padTo, if_pos hlt]
    exact mem_padTo_of_mem n (emptyRow :: rows) r (List.mem_cons_of_mem _ h)
  · rw [padTo, if_neg hlt]
    exact h
termination_by n - rows.length
decreasing_by simp; omega

theorem clearLinesPC_perfect_iff (board : Board) (c : Nat) :
    (clearLinesPC board c).isPerfectClear = true ↔
    ∀ row ∈ (clearLinesPC board c).board, ∀ cell ∈ row, cell = none := by
  have hpc : (clearLinesPC board c).isPerfectClear
      = (board.filter fun row => !isFullRow row).all (fun row => row.all (·.isNone)) := rfl
  have hbd : (clearLinesPC board c).board
      = padTo BOARD_HEIGHT (board.filter fun row => !isFullRow row) := rfl
  rw [hpc, hbd]
  constructor
  · intro hall row hrow cell hcell
    rcases mem_padTo _ _ _ hrow with he | hm
    · rw [he] at hcell
      exact List.eq_of_mem_replicate hcell
    · have h1 := List.all_eq_true.mp hall row hm
      have h2 := List.all_eq_true.mp h1 cell hcell
      simpa [Option.isNone_iff_eq_none] using h2
  · intro hmem
    apply List.all_eq_true.mpr
    intro row hrow
    apply List.all_eq_true.mpr
    intro cell hcell
    have := hmem row (mem_padTo_of_mem _ _ _ hrow) cell hcell
    simp [this]

/-- C1: on every lock (lock-delay expiry via `lockPiece`, or `hardDrop`), the
perfect-clear flag reported by the cleared board is true exactly when every
cell of the resulting board is empty, and the score delta adds the
perfect-clear bonus exactly once on top of the base and combo points exactly
when that flag is true. -/
theorem c1_perfect_clear_bonus (gs : GameState) (cur : Tetromino) (drawn : TetrominoType)
    (hp : gs.currentPiece = some cur) (hgo : gs.gameOver = false) (hip : gs.isPaused = false) :
    ((clearLinesPC (mergePieceToBoard gs.board cur) gs.ComboNumber).isPerfectClear = true ↔
      ∀ row ∈ (lockPiece drawn gs).board, ∀ cell ∈ row, cell = none) ∧
    (lockPiece drawn gs).score = gs.score
      + calculatePoints (clearLinesPC (mergePieceToBoard gs.board cur) gs.ComboNumber).linesCleared
          (clearLinesPC (mergePieceToBoard gs.board cur) gs.ComboNumber).ComboNumber
      + (if (clearLinesPC (mergePieceToBoard gs.board cur) gs.ComboNumber).isPerfectClear
         then CLEAR_POINTS_PERFECT_CLEAR else 0) ∧
    ((clearLinesPC (mergePieceToBoard gs.board
          { cur with position := getDropPosition gs.board cur }) gs.ComboNumber).isPerfectClear = true ↔
      ∀ row ∈ (hardDrop drawn gs).board, ∀ cell ∈ row, cell = none) ∧
    (hardDrop drawn gs).score = gs.score
      + calculatePoints
          (clearLinesPC (mergePieceToBoard gs.board
            { cur with position := getDropPosition gs.board cur }) gs.ComboNumber).linesCleared
          (clearLinesPC (mergePieceToBoard gs.board
            { cur with position := getDropPosition gs.board cur }) gs.ComboNumber).ComboNumber
      + (if (clearLinesPC (mergePieceToBoard gs.board
            { cur with position := getDropPosition gs.board cur }) gs.ComboNumber).isPerfectClear
         then CLEAR_POINTS_PERFECT_CLEAR else 0) := by
  unfold lockPiece hardDrop
  rw [hp]
  simp only [hgo, hip, Bool.or_false, Bool.false_or, Bool.false_eq_true, if_false]
  refine ⟨clearLinesPC_perfect_iff _ _, ?_, clearLinesPC_perfect_iff _ _, ?_⟩
  · show gs.score + calculatePointsPC _ _ _ = _
    rw [calculatePointsPC, Nat.add_assoc]
  · show gs.score + calculatePointsPC _ _ _ = _
    rw [calculatePointsPC, Nat.add_assoc]

/-- A board whose bottom row is occupied except in columns 0-3 (all other rows
empty): locking a horizontal I piece into the gap clears the last occupied
cells. -/
def pcBoard : Board :=
  (List.range 20).map fun y => (List.range 10).map fun x =>
    if y = 19 ∧ 4 ≤ x then some .I else none

/-- The I piece filling the bottom-row gap of `pcBoard`. -/
def pcPiece : Tetromino := { createTetromino .I with position := ⟨0, 18⟩ }

/-- The game state for the C1 witness (scenario C). -/
def pcState : GameState :=
  { board := pcBoard, currentPiece := some pcPiece, nextPieces := [],
    holdPiece := none, canHold := true, score := 0, lines := 0, level := 1,
    gameOver := false, isPaused := false, ComboNumber := 0, timeRemaining := 120 }

/-- Witness for C1 at scenario C. -/
theorem c1_perfect_clear_bonus_witness :
    ((clearLinesPC (mergePieceToBoard pcState.board pcPiece) pcState.ComboNumber).isPerfectClear = true ↔
      ∀ row ∈ (lockPiece TetrominoType.O pcState).board, ∀ cell ∈ row, cell = none) ∧
    (lockPiece TetrominoType.O pcState).score = pcState.score
      + calculatePoints
          (clearLinesPC (mergePieceToBoard pcState.board pcPiece) pcState.ComboNumber).linesCleared
          (clearLinesPC (mergePieceToBoard pcState.board pcPiece) pcState.ComboNumber).ComboNumber
      + (if (clearLinesPC (mergePieceToBoard pcState.board pcPiece) pcState.ComboNumber).isPerfectClear
         then CLEAR_POINTS_PERFECT_CLEAR else 0) ∧
    ((clearLinesPC (mergePieceToBoard pcState.board
          { pcPiece with position := getDropPosition pcState.board pcPiece })
        pcState.ComboNumber).isPerfectClear = true ↔
      ∀ row ∈ (hardDrop TetrominoType.O pcState).board, ∀ cell ∈ row, cell = none) ∧
    (hardDrop TetrominoType.O pcState).score = pcState.score
      + calculatePoints
          (clearLinesPC (mergePieceToBoard pcState.board
            { pcPiece with position := getDropPosition pcState.board pcPiece })
            pcState.ComboNumber).linesCleared
          (clearLinesPC (mergePieceToBoard pcState.board
            { pcPiece with position := getDropPosition pcState.board pcPiece })
            pcState.ComboNumber).ComboNumber
      + (if (clearLinesPC (mergePieceToBoard pcState.board
            { pcPiece with position := getDropPosition pcState.board pcPiece })
            pcState.ComboNumber).isPerfectClear
         then CLEAR_POINTS_PERFECT_CLEAR else 0) :=
  c1_perfect_clear_bonus pcState pcPiece TetrominoType.O rfl rfl rfl

/-! ## C10: the descent loop of `getDropPosition` -/

/-- Whether the shape of a piece has at least one occupied cell. -/
def hasOccupiedCellB (piece : Tetromino) : Bool :=
  (List.range piece.shape.length).any fun y =>
    (List.range (piece.shape.getD y []).length).any fun x =>
      decide ((piece.shape.getD y []).getD x 0 ≠ 0)

theorem valid_false_of_bottom (board : Board) (piece : Tetromino) (pos : Position)
    (hocc : hasOccupiedCellB piece = true) (hy : (BOARD_HEIGHT : Int) ≤ pos.y) :
    isValidMove board piece pos = false := by
  rw [isValidMove_eq_false_iff]
  simp only [hasOccupiedCellB, List.any_eq_true, List.mem_range, decide_eq_true_eq] at hocc
  obtain ⟨y, hylt, x, hxlt, hocc'⟩ := hocc
  refine ⟨y, hylt, x, hxlt, hocc', Or.inr (Or.inr (Or.inl ?_))⟩
  have : (0 : Int) ≤ (y : Int) := Int.ofNat_nonneg y
  omega

theorem valid_true_of_no_occ (board : Board) (piece : Tetromino) (pos : Position)
    (hocc : hasOccupiedCellB piece = false) : isValidMove board piece pos = true := by
  rw [isValidMove_eq_true_iff]
  intro y hy x hx hocc'
  exfalso
  have : hasOccupiedCellB piece = true := by
    simp only [hasOccupiedCellB, List.any_eq_true, List.mem_range, decide_eq_true_eq]
    exact ⟨y, hy, x, hx, hocc'⟩
  rw [hocc] at this
  cases this

theorem dropLoop_ge (board : Board) (piece : Tetromino) :
    ∀ fuel (y : Int), y ≤ dropLoop board piece fuel y := by
  intro fuel
  induction fuel with
  | zero => intro y; exact le_refl y
  | succ fuel ih =>
      intro y
      simp only [dropLoop]
      split
      · exact le_trans (by omega) (ih (y + 1))
      · exact le_refl y

theorem dropLoop_below_invalid (board : Board) (piece : Tetromino)
    (hocc : hasOccupiedCellB piece = true) :
    ∀ fuel (y : Int), ((BOARD_HEIGHT : Int) - 1 - y).toNat ≤ fuel →
      isValidMove board piece
        { x := piece.position.x, y := dropLoop board piece fuel y + 1 } = false := by
  intro fuel
  induction fuel with
  | zero =>
      intro y hfuel
      simp only [dropLoop]
      apply valid_false_of_bottom board piece _ hocc
      simp only
      omega
  | succ fuel ih =>
      intro y hfuel
      simp only [dropLoop]
      split
      · rename_i hvalid
        apply ih (y + 1)
        by_cases hy19 : (BOARD_HEIGHT : Int) ≤ y + 1
        · rw [valid_false_of_bottom board piece _ hocc hy19] at hvalid
          cases hvalid
        · omega
      · rename_i hvalid
        simpa using Bool.not_eq_true _ ▸ hvalid

theorem dropLoop_stable (board : Board) (piece : Tetromino)
    (hocc : hasOccupiedCellB piece = true) :
    ∀ fuel extra (y : Int), ((BOARD_HEIGHT : Int) - 1 - y).toNat ≤ fuel →
      dropLoop board piece (fuel + extra) y = dropLoop board piece fuel y := by
  intro fuel
  induction fuel with
  | zero =>
      intro extra y hfuel
      cases extra with
      | zero => rfl
      | succ extra =>
          simp only [dropLoop]
          have hbot : isValidMove board piece
              { x := piece.position.x, y := y + 1 } = false :=
            valid_false_of_bottom board piece _ hocc (by simp only; omega)
          rw [hbot]
          simp
  | succ fuel ih =>
      intro extra y hfuel
      have hshift : fuel + 1 + extra = (fuel + extra) + 1 := by omega
      rw [hshift]
      simp only [dropLoop]
      split
      · rename_i hvalid
        apply ih extra (y + 1)
        by_cases hy19 : (BOARD_HEIGHT : Int) ≤ y + 1
        · rw [valid_false_of_bottom board piece _ hocc hy19] at hvalid
          cases hvalid
        · omega
      · rfl

theorem dropLoop_valid_preserved (board : Board) (piece : Tetromino) :
    ∀ fuel (y : Int),
      isValidMove board piece { x := piece.position.x, y := y } = true →
      isValidMove board piece
        { x := piece.position.x, y := dropLoop board piece fuel y } = true := by
  intro fuel
  induction fuel with
  | zero => intro y h; exact h
  | succ fuel ih =>
      intro y h
      simp only [dropLoop]
      split
      · rename_i hvalid
        exact ih (y + 1) hvalid
      · exact h

theorem dropLoop_diverge (board : Board) (piece : Tetromino)
    (hocc : hasOccupiedCellB piece = false) :
    ∀ fuel (y : Int), dropLoop board piece fuel y = y + fuel := by
  intro fuel
  induction fuel with
  | zero => intro y; simp [dropLoop]
  | succ fuel ih =>
      intro y
      simp only [dropLoop]
      rw [valid_true_of_no_occ board piece _ hocc]
      simp only [if_true]
      rw [ih (y + 1)]
      omega

/-- A fully occupied board. -/
def fullBoard : Board := List.replicate 20 (List.replicate 10 (some .I))

/-- A T piece buried inside `fullBoard`. -/
def buriedPiece : Tetromino := { createTetromino .T with position := ⟨3, 3⟩ }

/-- Counterexample to C10 as stated: for a piece whose input position is
already invalid (here: buried in a full board), `getDropPosition` returns the
input position, at which the piece is *not* valid — the claim's "returns a
position at which the piece is valid" fails without assuming validity at the
input position. -/
theorem c10_counterexample :
    hasOccupiedCellB buriedPiece = true ∧
    getDropPosition fullBoard buriedPiece = buriedPiece.position ∧
    isValidMove fullBoard buriedPiece (getDropPosition fullBoard buriedPiece) = false := by
  decide

/-- C10 (amended): for a piece with at least one occupied cell the descent
loop terminates — its result is unchanged by any extra fuel beyond the bound
forced by the bottom wall — and returns a position with the same `x`, a `y` no
smaller than the input, below which the move is invalid, and at which the
piece is valid *provided it was valid at its input position*; for a piece with
no occupied cell the loop consumes all fuel (the source loop would not
terminate). -/
theorem c10_drop_position (board : Board) (piece : Tetromino) :
    (hasOccupiedCellB piece = true →
      (∀ extra, dropLoop board piece (dropFuel piece + extra) piece.position.y
        = dropLoop board piece (dropFuel piece) piece.position.y) ∧
      (getDropPosition board piece).x = piece.position.x ∧
      piece.position.y ≤ (getDropPosition board piece).y ∧
      isValidMove board piece
        { x := piece.position.x, y := (getDropPosition board piece).y + 1 } = false ∧
      (isValidMove board piece piece.position = true →
        isValidMove board piece (getDropPosition board piece) = true)) ∧
    (hasOccupiedCellB piece = false →
      ∀ fuel (y : Int), dropLoop board piece fuel y = y + fuel) := by
  constructor
  · intro hocc
    refine ⟨?_, rfl, ?_, ?_, ?_⟩
    · intro extra
      exact dropLoop_stable board piece hocc (dropFuel piece) extra piece.position.y
        (le_of_eq rfl)
    · exact dropLoop_ge board piece (dropFuel piece) piece.position.y
    · exact dropLoop_below_invalid board piece hocc (dropFuel piece) piece.position.y
        (le_of_eq rfl)
    · intro hvalid
      exact dropLoop_valid_preserved board piece (dropFuel piece) piece.position.y hvalid
  · intro hocc
    exact dropLoop_diverge board piece hocc

/-- A piece whose shape has no occupied cell (hypothetical input on which the
source loop would spin forever). -/
def emptyShapePiece : Tetromino :=
  { type := .T, position := ⟨0, 0⟩, shape := [[0]], rotation := 0 }

/-- Witness for C10 (amended): the spawned T piece on the empty board, and the
all-fuel-consumed behaviour for an unoccupied shape. -/
theorem c10_drop_position_witness :
    ((∀ extra, dropLoop createEmptyBoard (createTetromino .T)
        (dropFuel (createTetromino .T) + extra) (createTetromino .T).position.y
      = dropLoop createEmptyBoard (createTetromino .T)
          (dropFuel (createTetromino .T)) (createTetromino .T).position.y) ∧
     (getDropPosition createEmptyBoard (createTetromino .T)).x
        = (createTetromino .T).position.x ∧
     (createTetromino .T).position.y
        ≤ (getDropPosition createEmptyBoard (createTetromino .T)).y ∧
     isValidMove createEmptyBoard (createTetromino .T)
       { x := (createTetromino .T).position.x,
         y := (getDropPosition createEmptyBoard (createTetromino .T)).y + 1 } = false ∧
     (isValidMove createEmptyBoard (createTetromino .T) (createTetromino .T).position = true →
       isValidMove createEmptyBoard (createTetromino .T)
         (getDropPosition createEmptyBoard (createTetromino .T)) = true)) ∧
    dropLoop createEmptyBoard emptyShapePiece 5 0 = 0 + 5 :=
  ⟨(c10_drop_position createEmptyBoard (createTetromino .T)).1 (by decide),
   (c10_drop_position createEmptyBoard emptyShapePiece).2 (by decide) 5 0⟩

/-! ## C2: the 7-bag randomizer -/

theorem set_set_perm {α : Type} [DecidableEq α] (l : List α) (i j : Nat) (a b : α)
    (h1 : l[i]? = some a) (h2 : l[j]? = some b) : ((l.set i b).set j a).Perm l := by
  obtain ⟨hi, hgi⟩ := List.getElem?_eq_some.mp h1
  obtain ⟨hj, hgj⟩ := List.getElem?_eq_some.mp h2
  rw [List.perm_iff_count]
  intro x
  have hjlen : j < (l.set i b).length := by
    rw [List.length_set]
    exact hj
  have e1 := List.count_set a x (l.set i b) j hjlen
  have e2 := List.count_set b x l i hi
  have hset_j : (l.set i b)[j] = b := by
    by_cases hij : i = j
    · subst hij
      exact List.getElem_set_self hjlen
    · rw [List.getElem_set_ne hij hjlen]
      exact hgj
  rw [hset_j] at e1
  rw [hgi] at e2
  have hmem : a ∈ l := hgi ▸ List.getElem_mem hi
  have hmemb : b ∈ l := hgj ▸ List.getElem_mem hj
  by_cases hax : a = x
  · subst hax
    have hpos : 0 < List.count a l := List.count_pos_iff.mpr hmem
    by_cases hbx : b = a
    · subst hbx
      simp only [beq_self_eq_true, if_true] at e1 e2
      omega
    · have hb' : (b == a) = false := beq_eq_false_iff_ne.mpr hbx
      simp only [hb', beq_self_eq_true, if_true, if_false, Bool.false_eq_true] at e1 e2
      omega
  · have hax' : (a == x) = false := beq_eq_false_iff_ne.mpr hax
    by_cases hbx : b = x
    · subst hbx
      have hpos : 0 < List.count b l := List.count_pos_iff.mpr hmemb
      simp only [hax', beq_self_eq_true, if_true, if_false, Bool.false_eq_true] at e1 e2
      omega
    · have hbx' : (b == x) = false := beq_eq_false_iff_ne.mpr hbx
      simp only [hax', hbx', if_false, Bool.false_eq_true] at e1 e2
      omega

theorem swapList_perm {α : Type} [DecidableEq α] (l : List α) (i j : Nat) :
    (swapList l i j).Perm l := by
  unfold swapList
  cases h1 : l[i]? with
  | none => exact List.Perm.refl l
  | some a =>
      cases h2 : l[j]? with
      | none => exact List.Perm.refl l
      | some b => exact set_set_perm l i j a b h1 h2

theorem fisherYatesAux_perm {α : Type} [DecidableEq α] (rand : (n : Nat) → Fin (n + 1)) :
    ∀ (n : Nat) (l : List α), (fisherYatesAux rand n l).Perm l := by
  intro n
  induction n with
  | zero => intro l; exact List.Perm.refl l
  | succ n ih =>
      intro l
      exact (ih (swapList l (n + 1) (rand (n + 1)).val)).trans
        (swapList_perm l (n + 1) (rand (n + 1)).val)

theorem shuffle_perm {α : Type} [DecidableEq α] (rand : (n : Nat) → Fin (n + 1))
    (l : List α) : (shuffle rand l).Perm l :=
  fisherYatesAux_perm rand (l.length - 1) l

theorem generateNewBag_perm (rand : (n : Nat) → Fin (n + 1)) :
    (generateNewBag rand).Perm allTypes :=
  shuffle_perm rand allTypes

theorem drawN_drains (rand : (n : Nat) → Fin (n + 1)) :
    ∀ (n : Nat) (b : List TetrominoType), b.length = n → b ≠ [] →
      drawN rand n ⟨b⟩ = (b.reverse.map some, ⟨[]⟩) := by
  intro n
  induction n with
  | zero =>
      intro b hlen hne
      exact absurd (List.length_eq_zero.mp hlen) hne
  | succ n ih =>
      intro b hlen hne
      have hnz : ¬ b.length = 0 := by omega
      have hgl : b.getLast? = some (b.getLast hne) := List.getLast?_eq_getLast b hne
      have hrev : b.reverse = b.getLast hne :: b.dropLast.reverse := by
        conv_lhs => rw [← List.dropLast_append_getLast hne]
        rw [List.reverse_append]
        simp
      simp only [drawN, TetrominoBag.next, hnz, if_false, hgl]
      cases n with
      | zero =>
          have hdl : b.dropLast = [] := by
            have : b.dropLast.length = 0 := by
              rw [List.length_dropLast]
              omega
            exact List.length_eq_zero.mp this
          simp only [hdl, drawN, hrev]
          simp
      | succ n =>
          have hdlen : b.dropLast.length = n + 1 := by
            rw [List.length_dropLast]
            omega
          have hdne : b.dropLast ≠ [] := by
            intro h
            rw [h] at hdlen
            cases hdlen
          have := ih b.dropLast hdlen hdne
          rw [this, hrev]
          simp

/-- C2: starting from a freshly reset (empty) bag, the 7 consecutive draws
form a permutation of the 7 piece types (each exactly once); `next()` refills
the bag with a permutation of all 7 types exactly when it is empty, and pops
one element from it (from the back). -/
theorem c2_bag_fairness (rand : (n : Nat) → Fin (n + 1)) :
    ((drawN rand 7 ⟨[]⟩).1).Perm (allTypes.map some) ∧
    (∀ b : List TetrominoType, b ≠ [] →
      TetrominoBag.next rand ⟨b⟩ = (b.getLast?, ⟨b.dropLast⟩)) ∧
    TetrominoBag.next rand ⟨[]⟩
      = ((generateNewBag rand).getLast?, ⟨(generateNewBag rand).dropLast⟩) ∧
    (generateNewBag rand).Perm allTypes := by
  have hperm := generateNewBag_perm rand
  have hlen : (generateNewBag rand).length = 7 := by
    rw [hperm.length_eq]
    rfl
  have hne : generateNewBag rand ≠ [] := by
    intro h
    rw [h] at hlen
    cases hlen
  have h0 : TetrominoBag.next rand ⟨[]⟩
      = ((generateNewBag rand).getLast?, ⟨(generateNewBag rand).dropLast⟩) := by
    simp [TetrominoBag.next]
  refine ⟨?_, ?_, h0, hperm⟩
  · have hgl := List.getLast?_eq_getLast (generateNewBag rand) hne
    have hrev : (generateNewBag rand).reverse
        = (generateNewBag rand).getLast hne :: (generateNewBag rand).dropLast.reverse := by
      conv_lhs => rw [← List.dropLast_append_getLast hne]
      rw [List.reverse_append]
      simp
    have hdlen : (generateNewBag rand).dropLast.length = 6 := by
      rw [List.length_dropLast, hlen]
    have hdne : (generateNewBag rand).dropLast ≠ [] := by
      intro h
      rw [h] at hdlen
      cases hdlen
    have hrest := drawN_drains rand 6 (generateNewBag rand).dropLast hdlen hdne
    have hstep : drawN rand 7 ⟨[]⟩
        = ((TetrominoBag.next rand ⟨[]⟩).1
            :: (drawN rand 6 (TetrominoBag.next rand ⟨[]⟩).2).1,
           (drawN rand 6 (TetrominoBag.next rand ⟨[]⟩).2).2) := rfl
    have h7 : (drawN rand 7 ⟨[]⟩).1
        = ((generateNewBag rand).reverse.map some) := by
      rw [hstep, h0]
      show (generateNewBag rand).getLast?
          :: (drawN rand 6 ⟨(generateNewBag rand).dropLast⟩).1
        = (generateNewBag rand).reverse.map some
      rw [hrest, hgl, hrev]
      simp
    rw [h7]
    exact ((generateNewBag rand).reverse_perm.trans hperm).map some
  · intro b hb
    have hnz : ¬ b.length = 0 := by
      intro h
      exact hb (List.length_eq_zero.mp h)
    simp [TetrominoBag.next, hnz]

/-- A deterministic choice function for the C2 witness (always swap with
index 0). -/
def r0 : (n : Nat) → Fin (n + 1) := fun n => ⟨0, Nat.succ_pos n⟩

/-- Witness for C2: popping from a concrete nonempty bag removes its last
element without refilling. -/
theorem c2_bag_fairness_witness :
    TetrominoBag.next r0 ⟨[TetrominoType.I]⟩
      = ([TetrominoType.I].getLast?, ⟨[TetrominoType.I].dropLast⟩) :=
  (c2_bag_fairness r0).2.1 [TetrominoType.I] (by decide)

/-! ## C5: merge writes exactly the piece's cells -/

/-- The step of the `mergePieceToBoard` fold, named for reasoning. -/
def mergeStep (t : TetrominoType) (pos : Position) (acc : Board) (c : Nat × Nat × Nat) : Board :=
  if c.2.2 ≠ 0 then
    if 0 ≤ pos.y + (c.1 : Int) ∧ pos.y + (c.1 : Int) < (BOARD_HEIGHT : Int) ∧
        0 ≤ pos.x + (c.2.1 : Int) ∧ pos.x + (c.2.1 : Int) < (BOARD_WIDTH : Int) then
      setCell acc (pos.y + (c.1 : Int)).toNat (pos.x + (c.2.1 : Int)).toNat (some t)
    else acc
  else acc

theorem mergePieceToBoard_eq_foldl (board : Board) (piece : Tetromino) :
    mergePieceToBoard board piece
      = (shapeCells piece.shape).foldl (mergeStep piece.type piece.position) board := rfl

/-- Whether board cell `(y, x)` is covered by an occupied cell of the piece's
shape at the piece's position. -/
def coveredB (piece : Tetromino) (y x : Nat) : Bool :=
  (List.range piece.shape.length).any fun sy =>
    (List.range (piece.shape.getD sy []).length).any fun sx =>
      decide ((piece.shape.getD sy []).getD sx 0 ≠ 0) &&
        decide ((y : Int) = piece.position.y + sy) &&
        decide ((x : Int) = piece.position.x + sx)

/-- Whether processing shape cell `c` writes board cell `(y, x)`. -/
def writesB (pos : Position) (c : Nat × Nat × Nat) (y x : Nat) : Bool :=
  decide (c.2.2 ≠ 0) &&
    decide (0 ≤ pos.y + (c.1 : Int)) && decide (pos.y + (c.1 : Int) < (BOARD_HEIGHT : Int)) &&
    decide (0 ≤ pos.x + (c.2.1 : Int)) && decide (pos.x + (c.2.1 : Int) < (BOARD_WIDTH : Int)) &&
    decide ((pos.y + (c.1 : Int)).toNat = y) && decide ((pos.x + (c.2.1 : Int)).toNat = x)

theorem getD_set {α : Type} (l : List α) (i : Nat) (a d : α) (j : Nat) :
    (l.set i a).getD j d = if i = j ∧ i < l.length then a else l.getD j d := by
  rw [List.getD_eq_getElem?_getD, List.getElem?_set]
  by_cases hij : i = j
  · subst hij
    by_cases hl : i < l.length
    · simp [hl]
    · rw [if_pos rfl, if_neg hl,
        if_neg (show ¬(i = i ∧ i < l.length) from fun h => hl h.2),
        List.getD_eq_getElem?_getD, List.getElem?_eq_none (Nat.le_of_not_lt hl)]
  · rw [if_neg hij, if_neg (show ¬(i = j ∧ i < l.length) from fun h => hij h.1),
      ← List.getD_eq_getElem?_getD]

theorem getCell_setCell (b : Board) (Y X : Nat) (v : Option TetrominoType) (y x : Nat) :
    getCell (setCell b Y X v) y x =
      if Y = y ∧ X = x ∧ Y < b.length ∧ X < (b.getD Y []).length then v
      else getCell b y x := by
  unfold getCell setCell
  rw [getD_set]
  by_cases hout : Y = y ∧ Y < b.length
  · rw [if_pos hout]
    rw [getD_set]
    obtain ⟨hYy, hYlen⟩ := hout
    subst hYy
    by_cases hin : X = x ∧ X < (b.getD Y []).length
    · rw [if_pos hin, if_pos ⟨rfl, hin.1, hYlen, hin.2⟩]
    · rw [if_neg hin, if_neg]
      intro h
      exact hin ⟨h.2.1, h.2.2.2⟩
  · rw [if_neg hout, if_neg]
    intro h
    exact hout ⟨h.1, h.2.2.1⟩

theorem mergeStep_length (t : TetrominoType) (pos : Position) (acc : Board)
    (c : Nat × Nat × Nat) : (mergeStep t pos acc c).length = acc.length := by
  unfold mergeStep setCell
  split
  · split
    · exact List.length_set _ _ _
    · rfl
  · rfl

theorem mergeStep_rowLen (t : TetrominoType) (pos : Position) (acc : Board)
    (c : Nat × Nat × Nat) (yy : Nat) :
    ((mergeStep t pos acc c).getD yy []).length = (acc.getD yy []).length := by
  unfold mergeStep setCell
  split
  · split
    · rw [getD_set]
      by_cases h : (pos.y + (c.1 : Int)).toNat = yy ∧ (pos.y + (c.1 : Int)).toNat < acc.length
      · rw [if_pos h, List.length_set, h.1]
      · rw [if_neg h]
    · rfl
  · rfl

theorem step_getCell (t : TetrominoType) (pos : Position) (acc : Board) (c : Nat × Nat × Nat)
    (hW1 : acc.length = BOARD_HEIGHT)
    (hW2 : ∀ yy, yy < BOARD_HEIGHT → (acc.getD yy []).length = BOARD_WIDTH)
    (y x : Nat) :
    getCell (mergeStep t pos acc c) y x
      = if writesB pos c y x = true then some t else getCell acc y x := by
  unfold mergeStep writesB
  by_cases hocc : c.2.2 ≠ 0
  · rw [if_pos hocc]
    by_cases hb : 0 ≤ pos.y + (c.1 : Int) ∧ pos.y + (c.1 : Int) < (BOARD_HEIGHT : Int) ∧
        0 ≤ pos.x + (c.2.1 : Int) ∧ pos.x + (c.2.1 : Int) < (BOARD_WIDTH : Int)
    · rw [if_pos hb, getCell_setCell]
      have hbY : (pos.y + (c.1 : Int)).toNat < acc.length := by
        rw [hW1]
        omega
      have hbX : (pos.x + (c.2.1 : Int)).toNat
          < (acc.getD (pos.y + (c.1 : Int)).toNat []).length := by
        rw [hW2 _ (by omega : (pos.y + (c.1 : Int)).toNat < BOARD_HEIGHT)]
        omega
      by_cases hyx : (pos.y + (c.1 : Int)).toNat = y ∧ (pos.x + (c.2.1 : Int)).toNat = x
      · rw [if_pos ⟨hyx.1, hyx.2, hbY, hbX⟩,
          if_pos (by simp [hocc, hb.1, hb.2.1, hb.2.2.1, hb.2.2.2, hyx.1, hyx.2])]
      · rw [if_neg (fun h => hyx ⟨h.1, h.2.1⟩), if_neg]
        intro hw
        obtain ⟨⟨⟨⟨⟨⟨h1, h2⟩, h3⟩, h4⟩, h5⟩, h6⟩, h7⟩ :=
          (by simpa only [Bool.and_eq_true, decide_eq_true_eq] using hw :
            (((((c.2.2 ≠ 0 ∧ 0 ≤ pos.y + (c.1 : Int)) ∧ pos.y + (c.1 : Int) < (BOARD_HEIGHT : Int)) ∧
              0 ≤ pos.x + (c.2.1 : Int)) ∧ pos.x + (c.2.1 : Int) < (BOARD_WIDTH : Int)) ∧
              (pos.y + (c.1 : Int)).toNat = y) ∧ (pos.x + (c.2.1 : Int)).toNat = x)
        exact hyx ⟨h6, h7⟩
    · rw [if_neg hb, if_neg]
      intro hw
      obtain ⟨⟨⟨⟨⟨⟨h1, h2⟩, h3⟩, h4⟩, h5⟩, h6⟩, h7⟩ :=
        (by simpa only [Bool.and_eq_true, decide_eq_true_eq] using hw :
          (((((c.2.2 ≠ 0 ∧ 0 ≤ pos.y + (c.1 : Int)) ∧ pos.y + (c.1 : Int) < (BOARD_HEIGHT : Int)) ∧
            0 ≤ pos.x + (c.2.1 : Int)) ∧ pos.x + (c.2.1 : Int) < (BOARD_WIDTH : Int)) ∧
            (pos.y + (c.1 : Int)).toNat = y) ∧ (pos.x + (c.2.1 : Int)).toNat = x)
      exact hb ⟨h2, h3, h4, h5⟩
  · rw [if_neg hocc, if_neg]
    intro hw
    obtain ⟨⟨⟨⟨⟨⟨h1, h2⟩, h3⟩, h4⟩, h5⟩, h6⟩, h7⟩ :=
      (by simpa only [Bool.and_eq_true, decide_eq_true_eq] using hw :
        (((((c.2.2 ≠ 0 ∧ 0 ≤ pos.y + (c.1 : Int)) ∧ pos.y + (c.1 : Int) < (BOARD_HEIGHT : Int)) ∧
          0 ≤ pos.x + (c.2.1 : Int)) ∧ pos.x + (c.2.1 : Int) < (BOARD_WIDTH : Int)) ∧
          (pos.y + (c.1 : Int)).toNat = y) ∧ (pos.x + (c.2.1 : Int)).toNat = x)
    exact hocc h1

theorem mergeFold_getCell (t : TetrominoType) (pos : Position) :
    ∀ (cells : List (Nat × Nat × Nat)) (acc : Board),
      acc.length = BOARD_HEIGHT →
      (∀ yy, yy < BOARD_HEIGHT → (acc.getD yy []).length = BOARD_WIDTH) →
      ∀ y x, getCell (cells.foldl (mergeStep t pos) acc) y x
        = if cells.any (fun c => writesB pos c y x) = true then some t
          else getCell acc y x := by
  intro cells
  induction cells with
  | nil =>
      intro acc h1 h2 y x
      simp
  | cons c cs ih =>
      intro acc h1 h2 y x
      rw [List.foldl_cons]
      have hW1' : (mergeStep t pos acc c).length = BOARD_HEIGHT := by
        rw [mergeStep_length, h1]
      have hW2' : ∀ yy, yy < BOARD_HEIGHT →
          ((mergeStep t pos acc c).getD yy []).length = BOARD_WIDTH := by
        intro yy hyy
        rw [mergeStep_rowLen]
        exact h2 yy hyy
      rw [ih (mergeStep t pos acc c) hW1' hW2' y x, step_getCell t pos acc c h1 h2 y x,
        List.any_cons]
      cases hwc : writesB pos c y x with
      | true => cases hwcs : cs.any (fun c => writesB pos c y x) <;> simp [hwc, hwcs]
      | false => cases hwcs : cs.any (fun c => writesB pos c y x) <;> simp [hwc, hwcs]

theorem mem_shapeCells (shape : List (List Nat)) (c : Nat × Nat × Nat) :
    c ∈ shapeCells shape ↔
      c.1 < shape.length ∧ c.2.1 < (shape.getD c.1 []).length ∧
        c.2.2 = (shape.getD c.1 []).getD c.2.1 0 := by
  obtain ⟨sy, sx, v⟩ := c
  simp only [shapeCells, List.mem_flatMap, List.mem_map, List.mem_range]
  constructor
  · rintro ⟨y, hy, x, hx, heq⟩
    obtain ⟨e1, e2, e3⟩ : y = sy ∧ x = sx ∧ (shape.getD y []).getD x 0 = v := by
      simpa using heq
    subst e1
    subst e2
    exact ⟨hy, hx, e3.symm⟩
  · rintro ⟨h1, h2, h3⟩
    exact ⟨sy, h1, sx, h2, by rw [h3]⟩

theorem writes_iff_covered (board : Board) (piece : Tetromino)
    (hvalid : isValidMove board piece piece.position = true) (y x : Nat) :
    (shapeCells piece.shape).any (fun c => writesB piece.position c y x) = true ↔
      coveredB piece y x = true := by
  constructor
  · intro h
    obtain ⟨c, hmem, hw⟩ := List.any_eq_true.mp h
    obtain ⟨h1, h2, h3⟩ := (mem_shapeCells piece.shape c).mp hmem
    obtain ⟨⟨⟨⟨⟨⟨w1, w2⟩, w3⟩, w4⟩, w5⟩, w6⟩, w7⟩ :
        (((((c.2.2 ≠ 0 ∧ 0 ≤ piece.position.y + (c.1 : Int)) ∧
          piece.position.y + (c.1 : Int) < (BOARD_HEIGHT : Int)) ∧
          0 ≤ piece.position.x + (c.2.1 : Int)) ∧
          piece.position.x + (c.2.1 : Int) < (BOARD_WIDTH : Int)) ∧
          (piece.position.y + (c.1 : Int)).toNat = y) ∧
          (piece.position.x + (c.2.1 : Int)).toNat = x := by
      simpa only [writesB, Bool.and_eq_true, decide_eq_true_eq] using hw
    simp only [coveredB, List.any_eq_true, List.mem_range, Bool.and_eq_true,
      decide_eq_true_eq]
    refine ⟨c.1, h1, c.2.1, h2, ⟨?_, ?_⟩, ?_⟩
    · rw [← h3]
      exact w1
    · omega
    · omega
  · intro h
    simp only [coveredB, List.any_eq_true, List.mem_range, Bool.and_eq_true,
      decide_eq_true_eq] at h
    obtain ⟨sy, hsy, sx, hsx, ⟨hocc, hyeq⟩, hxeq⟩ := h
    have hgood := (isValidMove_eq_true_iff board piece piece.position).mp hvalid
      sy hsy sx hsx hocc
    push_neg at hgood
    obtain ⟨g1, g2, g3, g4⟩ := hgood
    apply List.any_eq_true.mpr
    refine ⟨(sy, sx, (piece.shape.getD sy []).getD sx 0),
      (mem_shapeCells piece.shape _).mpr ⟨hsy, hsx, rfl⟩, ?_⟩
    simp only [writesB, Bool.and_eq_true, decide_eq_true_eq]
    refine ⟨⟨⟨⟨⟨⟨hocc, by omega⟩, by omega⟩, by omega⟩, by omega⟩, by omega⟩, by omega⟩

/-- C5: if the piece is valid at its position on a well-formed board, merging
writes the piece's type into exactly the board cells covered by occupied shape
cells and leaves every other cell unchanged (the embedding is pure, so the
input board itself is untouched). -/
theorem c5_merge_spec (board : Board) (piece : Tetromino)
    (hW1 : board.length = BOARD_HEIGHT)
    (hW2 : ∀ yy, yy < BOARD_HEIGHT → (board.getD yy []).length = BOARD_WIDTH)
    (hvalid : isValidMove board piece piece.position = true) :
    ∀ y x : Nat, getCell (mergePieceToBoard board piece) y x
      = if coveredB piece y x = true then some piece.type else getCell board y x := by
  intro y x
  rw [mergePieceToBoard_eq_foldl,
    mergeFold_getCell piece.type piece.position (shapeCells piece.shape) board hW1 hW2 y x]
  have hiff := writes_iff_covered board piece hvalid y x
  cases ha : (shapeCells piece.shape).any (fun c => writesB piece.position c y x) with
  | true => rw [if_pos rfl, if_pos (hiff.mp ha)]
  | false =>
      cases hb : coveredB piece y x with
      | true =>
          rw [hiff.mpr hb] at ha
          cases ha
      | false => rfl

/-- Witness for C5: the freshly spawned T piece on the empty board (covered
cells (0,5), (1,4), (1,5), (1,6)), evaluated at the uncovered cell (0,4) next
to the top nub and at the untouched cell (5,5). -/
theorem c5_merge_spec_witness :
    (getCell (mergePieceToBoard createEmptyBoard (createTetromino .T)) 0 4
      = if coveredB (createTetromino .T) 0 4 = true then some TetrominoType.T
        else getCell createEmptyBoard 0 4) ∧
    (getCell (mergePieceToBoard createEmptyBoard (createTetromino .T)) 5 5
      = if coveredB (createTetromino .T) 5 5 = true then some TetrominoType.T
        else getCell createEmptyBoard 5 5) :=
  ⟨c5_merge_spec createEmptyBoard (createTetromino .T) (by decide) (by decide) (by decide) 0 4,
   c5_merge_spec createEmptyBoard (createTetromino .T) (by decide) (by decide) (by decide) 5 5⟩
